import Mathlib

/-!
Verification of the TTL cache in `internal/cache/cache.go` of kuiper-admin.

The Go cache stores opaque values keyed by strings, each with an absolute
expiration instant (`CacheItem.Expiration`, set to `time.Now().Add(ttl)` by
`Set`).  `Get` treats an entry as expired when `time.Now().After(Expiration)`
holds, i.e. strictly after the deadline, and in that case deletes the entry
as a side effect.  `Delete` removes one key, `Clear` replaces the whole map,
and the background `cleanup` goroutine removes every entry whose deadline is
strictly before the scan instant.

We embed this shallowly: time instants are `Int`; the Go map
`map[string]CacheItem` is a function `String → Option (CacheItem V)` (Go maps
are semantically finite assignments of values to keys); each method takes the
current instant `now` explicitly, standing for its internal `time.Now()`
calls.  `Get` returns both the read result (`Option V`, where `none` is Go's
`(nil, false)` and `some v` is `(v, true)`) and the possibly mutated cache.

The locking discipline of the source (which method acquires `mutex.Lock` and
which only `mutex.RLock`) is transcribed separately, so that lock-related
claims about which operations may mutate the entry table under which lock can
be stated.
-/

namespace KuiperCache

/-- Go `CacheItem`: a stored value together with its absolute expiration
instant (`Expiration time.Time`, modelled as `Int`). -/
structure CacheItem (V : Type) where
  value : V
  expiration : Int
deriving Repr, DecidableEq

/-- Go `Cache`: the entry table `items map[string]CacheItem`, modelled as a
assignment of optional items to keys.  The `sync.RWMutex` field is concurrency
machinery and is modelled separately by `CacheOp.lockMode`. -/
structure Cache (V : Type) where
  items : String → Option (CacheItem V)

/-- The table of a freshly created cache (`make(map[string]CacheItem)` in
`New`). -/
def Cache.empty {V : Type} : Cache V := ⟨fun _ => none⟩

/-- Go `Set`: installs `CacheItem{Value: value, Expiration: time.Now().Add(ttl)}`
at `key`, unconditionally overwriting any previous entry.  `now` stands for
the `time.Now()` call inside `Set`. -/
def Cache.set {V : Type} (c : Cache V) (key : String) (value : V) (ttl now : Int) :
    Cache V :=
  ⟨fun k => if k = key then some ⟨value, now + ttl⟩ else c.items k⟩

/-- Go `Get`: looks up `key`; a missing key yields `(nil, false)`; a present
item with `time.Now().After(item.Expiration)` (strictly past deadline) is
deleted from the table and yields `(nil, false)`; otherwise the stored value
is returned.  The second component is the cache after the call (Go mutates
`c.items` in place). -/
def Cache.get {V : Type} (c : Cache V) (key : String) (now : Int) :
    Option V × Cache V :=
  match c.items key with
  | none => (none, c)
  | some item =>
    if item.expiration < now then
      (none, ⟨fun k => if k = key then none else c.items k⟩)
    else
      (some item.value, c)

/-- Go `Delete`: `delete(c.items, key)` — removes the entry if present, a
no-op on an absent key. -/
def Cache.delete {V : Type} (c : Cache V) (key : String) : Cache V :=
  ⟨fun k => if k = key then none else c.items k⟩

/-- Go `Clear`: `c.items = make(map[string]CacheItem)` — replaces the table
with an empty one. -/
def Cache.clear {V : Type} (_c : Cache V) : Cache V := ⟨fun _ => none⟩

/-- One run of the body of the Go `cleanup` goroutine: with `now :=
time.Now()` taken once at the start of the scan, every entry whose
expiration is strictly before `now` is deleted; all others are kept. -/
def Cache.sweep {V : Type} (c : Cache V) (now : Int) : Cache V :=
  ⟨fun k =>
    match c.items k with
    | none => none
    | some item => if item.expiration < now then none else some item⟩

/-- Helper for stating "after `Set` of a list of keys": folds `Set` over a
list of (key, value, ttl) triples, all at instant `now`. -/
def Cache.setMany {V : Type} (c : Cache V) : List (String × V × Int) → Int → Cache V
  | [], _ => c
  | (k, v, t) :: rest, now => (c.set k v t now).setMany rest now

/-- Two caches with the same entry table are equal. -/
theorem Cache.eq_of_items {V : Type} (a b : Cache V) (h : a.items = b.items) :
    a = b := by
  cases a; cases b; cases h; rfl

/-- The lock a method of the source holds while it runs: `shared` is
`mutex.RLock()`, `exclusive` is `mutex.Lock()`. -/
inductive LockMode where
  | shared
  | exclusive
deriving Repr, DecidableEq

/-- The five operations on the cache, as invoked by callers (the sweep being
one run of the `cleanup` loop body). -/
inductive CacheOp (V : Type) where
  | set (key : String) (value : V) (ttl : Int)
  | get (key : String)
  | del (key : String)
  | clear
  | sweep

/-- The lock each method of the source acquires, transcribed from the code:
`Set`, `Delete`, `Clear` and the `cleanup` body call `c.mutex.Lock()`;
`Get` calls only `c.mutex.RLock()`. -/
def CacheOp.lockMode {V : Type} : CacheOp V → LockMode
  | .set _ _ _ => .exclusive
  | .get _ => .shared
  | .del _ => .exclusive
  | .clear => .exclusive
  | .sweep => .exclusive

/-- The effect of each operation on the cache state, at instant `now`. -/
def CacheOp.apply {V : Type} (c : Cache V) (now : Int) : CacheOp V → Cache V
  | .set k v ttl => c.set k v ttl now
  | .get k => (c.get k now).2
  | .del k => c.delete k
  | .clear => c.clear
  | .sweep => c.sweep now

/-- An operation mutates the entry table on a given state when the table
after it differs from the table before it. -/
def CacheOp.mutates {V : Type} (c : Cache V) (now : Int) (op : CacheOp V) : Prop :=
  (op.apply c now).items ≠ c.items

/-- A concrete cache holding key "k" with value 42 and expiration instant 5
(written via `Set` at instant 0 with ttl 5). -/
def deadlineCache : Cache Nat := Cache.empty.set "k" 42 5 0

/-- C1 counterexample: the claim says that `Get` at an instant `now` with
`now ≥ expiresAt` returns `(nil, false)`, but the source tests
`time.Now().After(Expiration)`, a strict comparison, so at `now = expiresAt`
(here both 5) `Get` returns the stored value with `found = true`. -/
theorem C1_counterexample :
    deadlineCache.items "k" = some ⟨42, 5⟩ ∧ (5 : Int) ≥ 5 ∧
    (deadlineCache.get "k" 5).1 = some 42 := by
  refine ⟨by decide, by decide, by decide⟩

/-- C1 (amended): `Get` returns `(nil, false)` exactly when the key is absent
or the entry's deadline is strictly past (`now > expiresAt`); in particular it
never returns a stored value whose deadline is strictly past, and an absent
key is always a miss. -/
theorem C1_get_miss_iff {V : Type} (c : Cache V) (key : String) (now : Int) :
    (c.get key now).1 = none ↔
      ∀ it, c.items key = some it → it.expiration < now := by
  cases h : c.items key with
  | none => simp [Cache.get, h]
  | some item =>
    by_cases hexp : item.expiration < now
    · simp [Cache.get, h, hexp]
    · simp [Cache.get, h, hexp]

/-- C2: for every key `k`, value `v` and ttl `t > 0`, a `Set(k, v, t)` at
instant `now` followed by a `Get(k)` at any instant not past the deadline
`now + t` (in particular immediately, at `now` itself) returns `(v, true)`. -/
theorem C2_round_trip {V : Type} (c : Cache V) (k : String) (v : V)
    (t now tGet : Int) (ht : 0 < t) (h1 : now ≤ tGet) (h2 : tGet ≤ now + t) :
    ((c.set k v t now).get k tGet).1 = some v := by
  have hlt : ¬ (now + t < tGet) := by omega
  simp [Cache.get, Cache.set, hlt]

/-- C2 witness: `Set("a", 1, ttl 1)` at instant 0 then `Get("a")` at instant
0 returns the value 1. -/
theorem C2_round_trip_witness :
    ((Cache.empty.set "a" (1 : Nat) 1 0).get "a" 0).1 = some 1 :=
  C2_round_trip Cache.empty "a" 1 1 0 0 (by decide) (by decide) (by decide)

/-- C3: one sweep run at instant `now` removes from the entry table exactly
the entries whose deadline has passed (is strictly before `now`): an absent
key stays absent, a past-deadline entry is physically removed, and a
future-deadline entry is kept unchanged and still retrievable by `Get` with
its original value. -/
theorem C3_sweep_exact {V : Type} (c : Cache V) (now : Int) (key : String) :
    (c.items key = none → (c.sweep now).items key = none) ∧
    (∀ it, c.items key = some it → it.expiration < now →
      (c.sweep now).items key = none) ∧
    (∀ it, c.items key = some it → now < it.expiration →
      (c.sweep now).items key = some it ∧
      ((c.sweep now).get key now).1 = some it.value) := by
  refine ⟨?_, ?_, ?_⟩
  · intro h; simp [Cache.sweep, h]
  · intro it h hexp; simp [Cache.sweep, h, hexp]
  · intro it h hfut
    have hexp : ¬ it.expiration < now := by omega
    exact ⟨by simp [Cache.sweep, h, hexp], by simp [Cache.get, Cache.sweep, h, hexp]⟩

/-- A concrete cache with one past-deadline entry ("old", expires at 1) and
one future-deadline entry ("new", expires at 10), as seen by a sweep at
instant 5. -/
def mixedCache : Cache Nat := (Cache.empty.set "old" 1 1 0).set "new" 2 10 0

/-- C3 witness: sweeping `mixedCache` at instant 5 removes "old"
(deadline 1 < 5) and keeps "new" (deadline 10 > 5) retrievable with its
original value. -/
theorem C3_sweep_exact_witness :
    ((mixedCache.sweep 5).items "old" = none) ∧
    ((mixedCache.sweep 5).items "new" = some ⟨2, 10⟩) ∧
    (((mixedCache.sweep 5).get "new" 5).1 = some 2) :=
  ⟨(C3_sweep_exact mixedCache 5 "old").2.1 ⟨1, 1⟩ (by decide) (by decide),
   ((C3_sweep_exact mixedCache 5 "new").2.2 ⟨2, 10⟩ (by decide) (by decide)).1,
   ((C3_sweep_exact mixedCache 5 "new").2.2 ⟨2, 10⟩ (by decide) (by decide)).2⟩

/-- C4 counterexample: the claim says a `Set` with ttl 0 makes the next `Get`
at any instant at or after the `Set` a miss, but a `Set("k", 7, ttl 0)` at
instant 0 followed by `Get("k")` at the same instant 0 is a hit in the
source (`time.Now().After(Expiration)` is false when both are equal). -/
theorem C4_counterexample :
    ((0 : Int) ≤ 0) ∧ ((Cache.empty.set "k" (7 : Nat) 0 0).get "k" 0).1 = some 7 :=
  ⟨by decide, by decide⟩

/-- C4 (amended): a `Set` with zero or negative ttl stores an entry whose
deadline `tSet + ttl` does not exceed the `Set` instant, and the next `Get`
treats it as a miss at any instant strictly after the `Set` (or already at
the `Set` instant itself when the ttl is strictly negative). -/
theorem C4_nonpositive_ttl {V : Type} (c : Cache V) (k : String) (v : V)
    (ttl tSet tGet : Int) (httl : ttl ≤ 0) (hle : tSet ≤ tGet)
    (hstrict : tSet < tGet ∨ ttl < 0) :
    (c.set k v ttl tSet).items k = some ⟨v, tSet + ttl⟩ ∧
    tSet + ttl ≤ tSet ∧
    ((c.set k v ttl tSet).get k tGet).1 = none := by
  refine ⟨by simp [Cache.set], by omega, ?_⟩
  have hlt : tSet + ttl < tGet := by omega
  simp [Cache.get, Cache.set, hlt]

/-- C4 witness: `Set("k", 7, ttl 0)` at instant 0 stores an entry expiring at
instant 0, and `Get("k")` at instant 1 is a miss. -/
theorem C4_nonpositive_ttl_witness :
    (Cache.empty.set "k" (7 : Nat) 0 0).items "k" = some ⟨7, 0⟩ ∧
    ((Cache.empty.set "k" (7 : Nat) 0 0).get "k" 1).1 = none :=
  ⟨(C4_nonpositive_ttl Cache.empty "k" 7 0 0 1 (by decide) (by decide)
      (Or.inl (by decide))).1,
   (C4_nonpositive_ttl Cache.empty "k" 7 0 0 1 (by decide) (by decide)
      (Or.inl (by decide))).2.2⟩

/-- A concrete cache whose single entry ("k", value 9) expired at instant 5,
observed at instant 10. -/
def staleCache : Cache Nat := Cache.empty.set "k" 9 5 0

/-- C5: the source violates the claimed lock discipline — `Get` acquires only
the shared lock (`c.mutex.RLock()`), yet on an expired entry it mutates the
entry table (`delete(c.items, key)`), so this mutation does not exclude
concurrent readers. -/
theorem C5_get_mutates_under_shared_lock :
    CacheOp.lockMode (CacheOp.get "k" : CacheOp Nat) = LockMode.shared ∧
    CacheOp.mutates staleCache 10 (CacheOp.get "k") :=
  ⟨rfl, fun h => absurd (congrFun h "k") (by decide)⟩

/-- C6: a second `Set` on the same key unconditionally replaces the prior
entry: afterwards the table holds exactly `(v2, n2 + t2)` regardless of the
first value and ttl, and when `t2 > 0` a `Get` at the second `Set`'s instant
returns `(v2, true)`. -/
theorem C6_overwrite {V : Type} (c : Cache V) (k : String) (v1 v2 : V)
    (t1 t2 n1 n2 : Int) (h : 0 < t2) :
    (((c.set k v1 t1 n1).set k v2 t2 n2).items k = some ⟨v2, n2 + t2⟩) ∧
    ((((c.set k v1 t1 n1).set k v2 t2 n2).get k n2).1 = some v2) := by
  constructor
  · simp [Cache.set]
  · have hlt : ¬ (n2 + t2 < n2) := by omega
    simp [Cache.get, Cache.set, hlt]

/-- C6 witness: `Set("k", 1, ttl 3)` then `Set("k", 2, ttl 4)` (both at
instant 0) leaves the entry `(2, 4)` and `Get("k")` at instant 0 returns 2. -/
theorem C6_overwrite_witness :
    (((Cache.empty.set "k" (1 : Nat) 3 0).set "k" 2 4 0).items "k" = some ⟨2, 4⟩) ∧
    ((((Cache.empty.set "k" (1 : Nat) 3 0).set "k" 2 4 0).get "k" 0).1 = some 2) :=
  ⟨(C6_overwrite Cache.empty "k" 1 2 3 4 0 0 (by decide)).1,
   (C6_overwrite Cache.empty "k" 1 2 3 4 0 0 (by decide)).2⟩

/-- C7: a key still physically present in the entry table whose deadline is
strictly in the past is treated as a miss by `Get`, even though no sweep has
removed it. -/
theorem C7_expired_is_miss {V : Type} (c : Cache V) (k : String)
    (it : CacheItem V) (now : Int) (hin : c.items k = some it)
    (hexp : it.expiration < now) :
    (c.get k now).1 = none := by
  simp [Cache.get, hin, hexp]

/-- C7 witness: an entry for "k" expiring at instant 5 is a miss for a `Get`
at instant 6. -/
theorem C7_expired_is_miss_witness :
    ((Cache.empty.set "k" (3 : Nat) 5 0).get "k" 6).1 = none :=
  C7_expired_is_miss (Cache.empty.set "k" 3 5 0) "k" ⟨3, 5⟩ 6 (by decide) (by decide)

/-- C8: after any sequence of `Set` calls followed by `Clear`, every key is
physically absent from the entry table and every `Get` (at any instant)
returns not-found. -/
theorem C8_clear_all {V : Type} (c : Cache V) (kvs : List (String × V × Int))
    (nowSet nowGet : Int) (k : String) :
    (((c.setMany kvs nowSet).clear).items k = none) ∧
    ((((c.setMany kvs nowSet).clear).get k nowGet).1 = none) :=
  ⟨rfl, rfl⟩

/-- C9: `Delete` is idempotent — deleting the same key twice yields the same
cache as deleting it once — and `Delete` of an absent key leaves the cache
unchanged (and signals no error: in the embedding it totally returns a
cache). -/
theorem C9_delete_idempotent {V : Type} (c : Cache V) (k : String) :
    ((c.delete k).delete k = c.delete k) ∧
    (c.items k = none → c.delete k = c) := by
  constructor
  · apply Cache.eq_of_items
    funext k2
    by_cases hk : k2 = k <;> simp [Cache.delete, hk]
  · intro h
    apply Cache.eq_of_items
    funext k2
    by_cases hk : k2 = k <;> simp [Cache.delete, hk, h]

/-- C9 witness: on the empty cache, deleting "a" twice equals deleting it
once, and deleting the absent key "a" leaves the cache unchanged. -/
theorem C9_delete_idempotent_witness :
    (((Cache.empty : Cache Nat).delete "a").delete "a" = Cache.empty.delete "a") ∧
    ((Cache.empty : Cache Nat).delete "a" = Cache.empty) :=
  ⟨(C9_delete_idempotent Cache.empty "a").1,
   (C9_delete_idempotent Cache.empty "a").2 rfl⟩

/-- C10: `Get` is not read-only — on a present entry whose deadline is
strictly past, it physically removes exactly that entry from the table as a
side effect, while on an absent key or a live entry it leaves the cache
completely unchanged. -/
theorem C10_get_eager_removal {V : Type} (c : Cache V) (k : String) (now : Int) :
    (∀ it, c.items k = some it → it.expiration < now →
      ((c.get k now).2.items k = none ∧
       ∀ k2, k2 ≠ k → (c.get k now).2.items k2 = c.items k2)) ∧
    (c.items k = none → (c.get k now).2 = c) ∧
    (∀ it, c.items k = some it → now ≤ it.expiration → (c.get k now).2 = c) := by
  refine ⟨?_, ?_, ?_⟩
  · intro it h hexp
    refine ⟨by simp [Cache.get, h, hexp], ?_⟩
    intro k2 hk2
    simp [Cache.get, h, hexp, hk2]
  · intro h
    simp [Cache.get, h]
  · intro it h hlive
    have hexp : ¬ it.expiration < now := by omega
    simp [Cache.get, h, hexp]

/-- C10 witness: a `Get` at instant 6 on an entry for "k" expiring at 5
physically removes it, while a `Get` at instant 3 on the same cache leaves
the cache unchanged. -/
theorem C10_get_eager_removal_witness :
    (((Cache.empty.set "k" (3 : Nat) 5 0).get "k" 6).2.items "k" = none) ∧
    (((Cache.empty.set "k" (3 : Nat) 5 0).get "k" 3).2 = Cache.empty.set "k" 3 5 0) :=
  ⟨((C10_get_eager_removal (Cache.empty.set "k" 3 5 0) "k" 6).1 ⟨3, 5⟩
      (by decide) (by decide)).1,
   (C10_get_eager_removal (Cache.empty.set "k" 3 5 0) "k" 3).2.2 ⟨3, 5⟩
      (by decide) (by decide)⟩

end KuiperCache
